import Mathlib

/-!
# Session stream reconciler — verification of the chat client

Shallow embedding of the WebSocket chat client of this repository.
Two ingestion styles exist in the source:

* **discrete mode** (`src/frontend/src/App.vue`): each logical unit
  (thought, tool request, tool result, final reply, file bundle) becomes
  its own entry in the `messages` list;
* **incremental mode** (`src/unnamed/part_001`): thought/content text is
  concatenated onto the last open assistant message.

Machine state (`messages`, `loading`, `wsConnected`, the message id
counter and the console log) is modelled explicitly; the `onmessage`,
`onclose`, `sendMessage` and `toggleCollapse` handlers are transcribed
statement by statement.
-/

namespace AspenSim

/-- Kind tag of a transcript entry in the discrete-mode client: the
`type` field of the objects pushed onto `messages` in `App.vue`
(`user`, `thought`, `tool_request`, `assistant`, `file_download`). -/
inductive MsgType where
  | user
  | thought
  | tool_request
  | assistant
  | file_download
deriving DecidableEq, Repr

/-- A file reference as it appears in `file_paths` arrays: `{ path, type }`. -/
structure FileRef where
  path : String
  type : String
deriving DecidableEq, Repr

/-- One element of an inbound frame's `tool_calls` array:
`{ id, function_name, args }`.  `args` is opaque to the client and is
modelled as an uninterpreted string. -/
structure ToolCall where
  id : String
  function_name : String
  args : String
deriving DecidableEq, Repr

/-- One element of an inbound frame's `tool_results` array:
`{ call_id, result, is_error?, file_paths? }`. -/
structure ToolResult where
  call_id : String
  result : String
  is_error : Option Bool := none
  file_paths : Option (List FileRef) := none
deriving DecidableEq, Repr

/-- An inbound frame after a successful `JSON.parse`: any subset of the
observed fields may be present (absent = `none`). -/
structure Frame where
  type : Option String := none
  thought : Option String := none
  content : Option String := none
  status : Option String := none
  tool_calls : Option (List ToolCall) := none
  tool_results : Option (List ToolResult) := none
  file_paths : Option (List FileRef) := none
deriving DecidableEq, Repr

/-- A raw wire message: it either parses to a `Frame` or `JSON.parse`
raises (invalid JSON / non-object payload). -/
inductive Raw where
  | valid (f : Frame)
  | malformed
deriving DecidableEq, Repr

/-- The ECMAScript whitespace set recognised by `String.prototype.trim`
(WhiteSpace plus LineTerminator code points). -/
def jsWS (c : Char) : Bool :=
  [' ', '\t', '\n', '\r', '\x0b', '\x0c', ' ', ' ', ' ',
   ' ', ' ', ' ', ' ', ' ', ' ', ' ',
   ' ', ' ', ' ', ' ', ' ', ' ', ' ',
   '　', '﻿'].contains c

/-- JS `String.prototype.trim`: strip leading and trailing `jsWS`
characters. -/
def jsTrim (s : String) : String :=
  String.mk (((s.data.dropWhile jsWS).reverse.dropWhile jsWS).reverse)

/-- One entry of the discrete-mode `messages` list.  The JS objects carry
different subsets of these fields depending on `type`; absent fields are
modelled by the defaults (`""`, `[]`, `false`), matching the values the
creators in `App.vue` assign. -/
structure Msg where
  id : Nat
  type : MsgType
  content : String := ""
  call_id : String := ""
  function_name : String := ""
  args : String := ""
  result : String := ""
  file_paths : List FileRef := []
  is_error : Bool := false
  collapsed : Bool := false
deriving DecidableEq, Repr

/-- Discrete-mode client state: `messages`, the id counter
(`messageIdCounter`), `loading`, `wsConnected` and the console log. -/
structure DSession where
  messages : List Msg := []
  counter : Nat := 0
  loading : Bool := false
  wsConnected : Bool := false
  log : List String := []
deriving DecidableEq, Repr

/-- Initial discrete-mode state (`ref([])`, `ref(false)`, `ref(false)`). -/
def initD : DSession := {}

/-- `createUserMessage` followed by `messages.value.push`. -/
def pushUser (s : DSession) (content : String) : DSession :=
  { s with
    messages := s.messages ++ [{ id := s.counter, type := .user, content := content }],
    counter := s.counter + 1 }

/-- `createThoughtMessage` followed by `messages.value.push`. -/
def pushThought (s : DSession) (t : String) : DSession :=
  { s with
    messages := s.messages ++ [{ id := s.counter, type := .thought, content := t }],
    counter := s.counter + 1 }

/-- `createAssistantMessage` followed by `messages.value.push`. -/
def pushAssistant (s : DSession) (c : String) : DSession :=
  { s with
    messages := s.messages ++ [{ id := s.counter, type := .assistant, content := c }],
    counter := s.counter + 1 }

/-- `createToolRequestMessage` followed by `messages.value.push`:
`result` starts as `''`, `file_paths` as `[]`, `is_error` as `false`. -/
def pushToolReq (s : DSession) (tc : ToolCall) : DSession :=
  { s with
    messages := s.messages ++
      [{ id := s.counter, type := .tool_request, call_id := tc.id,
         function_name := tc.function_name, args := tc.args }],
    counter := s.counter + 1 }

/-- The `file_download` branch: push `{ id, type:'file_download', file_paths }`. -/
def pushFileMsg (s : DSession) (fps : List FileRef) : DSession :=
  { s with
    messages := s.messages ++ [{ id := s.counter, type := .file_download, file_paths := fps }],
    counter := s.counter + 1 }

/-- Body of the `tool_executed` loop for one result: find the **first**
message with `type === 'tool_request'` and matching `call_id`, and if
found overwrite its `result`, set `is_error` to `is_error || false`, and
replace `file_paths` when the result carries an array. -/
def updateFirstRes (tr : ToolResult) : List Msg → List Msg
  | [] => []
  | m :: rest =>
    if m.type = .tool_request ∧ m.call_id = tr.call_id then
      { m with
        result := tr.result,
        is_error := tr.is_error.getD false,
        file_paths := match tr.file_paths with
          | some fps => fps
          | none => m.file_paths } :: rest
    else
      m :: updateFirstRes tr rest

/-- `data.tool_results.forEach(...)` over the evolving message list. -/
def applyResults (s : DSession) (trs : List ToolResult) : DSession :=
  { s with messages := trs.foldl (fun ms tr => updateFirstRes tr ms) s.messages }

/-- The discrete-mode `socket.onmessage` body after a successful
`JSON.parse` (`App.vue`), transcribed statement by statement: the
`done` early return, the `file_download` early return, then the
`thought`, `tool_calling`, `tool_executed` and `content` blocks in
source order. -/
def ingestD (s : DSession) (d : Frame) : DSession :=
  if d.type == some "done" then
    { s with loading := false }
  else if d.type == some "file_download" && d.file_paths.isSome then
    pushFileMsg s (d.file_paths.getD [])
  else
    let s1 := match d.thought with
      | some t => if t != "" && jsTrim t != "" then pushThought s t else s
      | none => s
    let s2 := if d.status == some "tool_calling" then
        match d.tool_calls with
        | some tcs => if tcs.length > 0 then tcs.foldl pushToolReq s1 else s1
        | none => s1
      else s1
    let s3 := if d.status == some "tool_executed" then
        match d.tool_results with
        | some trs => if trs.length > 0 then applyResults s2 trs else s2
        | none => s2
      else s2
    match d.content with
    | some c => if c != "" && jsTrim c != "" then pushAssistant s3 c else s3
    | none => s3

/-- The whole `socket.onmessage` handler including the `try/catch`: a
message that fails to parse is caught, a `console.error` entry is
written, and the frame is discarded. -/
def ingestDRaw (s : DSession) (r : Raw) : DSession :=
  match r with
  | .valid f => ingestD s f
  | .malformed => { s with log := s.log ++ ["解析WebSocket消息失败"] }

/-- `toggleCollapse` helper: `messages.value.find(m => m.id === msgId)`
followed by `msg.collapsed = !msg.collapsed` — the first match only. -/
def toggleFirst (msgId : Nat) : List Msg → List Msg
  | [] => []
  | m :: rest =>
    if m.id = msgId then { m with collapsed := !m.collapsed } :: rest
    else m :: toggleFirst msgId rest

/-- `toggleCollapse(msgId)` from `App.vue`. -/
def toggleCollapse (s : DSession) (msgId : Nat) : DSession :=
  { s with messages := toggleFirst msgId s.messages }

/-- The single outbound frame shape `{ message: string }`. -/
structure Outbound where
  message : String
deriving DecidableEq, Repr

/-- `sendMessage` (identical in both clients): no-op when the input is
empty or `loading` is set; otherwise push the local user echo, call
`socket.send({message})`, and set `loading`.  The returned list holds
the frames handed to `socket.send`.  Note: the guard never consults
`wsConnected`. -/
def sendMessage (s : DSession) (userInput : String) : DSession × List Outbound :=
  if userInput == "" || s.loading then (s, [])
  else
    ({ pushUser s userInput with loading := true }, [{ message := userInput }])

/-! ## Per-field effects

The fixed-order field handlers of the discrete-mode `onmessage` body,
each depending only on its own guard field; used to state how `ingestD`
decomposes on frames that take neither early return. -/

/-- Effect of the `thought` field alone (`if (data.thought && data.thought.trim())`). -/
def thoughtEffect (d : Frame) (s : DSession) : DSession :=
  match d.thought with
  | some t => if t != "" && jsTrim t != "" then pushThought s t else s
  | none => s

/-- Effect of the `tool_calling` status alone. -/
def toolCallEffect (d : Frame) (s : DSession) : DSession :=
  if d.status == some "tool_calling" then
    match d.tool_calls with
    | some tcs => if tcs.length > 0 then tcs.foldl pushToolReq s else s
    | none => s
  else s

/-- Effect of the `tool_executed` status alone. -/
def toolExecEffect (d : Frame) (s : DSession) : DSession :=
  if d.status == some "tool_executed" then
    match d.tool_results with
    | some trs => if trs.length > 0 then applyResults s trs else s
    | none => s
  else s

/-- Effect of the `content` field alone. -/
def contentEffect (d : Frame) (s : DSession) : DSession :=
  match d.content with
  | some c => if c != "" && jsTrim c != "" then pushAssistant s c else s
  | none => s

/-! ## Incremental mode (`src/unnamed/part_001`) -/

/-- A tool-call entry of the incremental client: the raw wire object
spread into `lastMsg.tool_calls` (no `result` property until a matching
result arrives and sets it). -/
structure ITool where
  id : String
  function_name : String
  args : String
  result : Option String := none
deriving DecidableEq, Repr

/-- One entry of the incremental-mode `messages` list:
`{ role, content, thought, tool_calls }`. -/
structure IMsg where
  role : String
  content : String := ""
  thought : String := ""
  tool_calls : List ITool := []
deriving DecidableEq, Repr

/-- Incremental-mode client state. -/
structure ISession where
  messages : List IMsg := []
  loading : Bool := false
  wsConnected : Bool := false
deriving DecidableEq, Repr

/-- Initial incremental-mode state. -/
def initI : ISession := {}

/-- The fresh accumulating assistant message pushed when the last
message is missing or has `role === 'user'`. -/
def freshAssistant : IMsg :=
  { role := "assistant", content := "", thought := "", tool_calls := [] }

/-- The open-turn logic: `let lastMsg = messages[messages.length-1];
if (!lastMsg || lastMsg.role === 'user') push a fresh assistant turn`. -/
def ensureOpen (l : List IMsg) : List IMsg :=
  match l.getLast? with
  | none => l ++ [freshAssistant]
  | some m => if m.role == "user" then l ++ [freshAssistant] else l

/-- Mutate the last element of the list in place (the JS code holds a
reference `lastMsg` to it). -/
def modifyLast (f : IMsg → IMsg) : List IMsg → List IMsg
  | [] => []
  | [m] => [f m]
  | m :: rest => m :: modifyLast f rest

/-- Convert a wire `tool_calls` entry to the stored object (spread). -/
def toITool (tc : ToolCall) : ITool :=
  { id := tc.id, function_name := tc.function_name, args := tc.args }

/-- Body of the incremental `tool_executed` loop for one result:
`lastMsg.tool_calls.find(t => t.id === res.call_id)`, then
`tool.result = res.result` on the first match. -/
def updateFirstITool (res : ToolResult) : List ITool → List ITool
  | [] => []
  | t :: rest =>
    if t.id = res.call_id then { t with result := some res.result } :: rest
    else t :: updateFirstITool res rest

/-- The incremental-mode `socket.onmessage` body after `JSON.parse`
(`src/unnamed/part_001`): `done` early return, open-turn logic, then
`thought`/`content` concatenation and the two status branches.  The
handler has no guard on `tool_calls`/`tool_results` being present: a
`tool_calling` status without a `tool_calls` array (spread of
`undefined`) or a `tool_executed` status without `tool_results`
(`forEach` of `undefined`) raises, modelled by `Except.error`. -/
def ingestI (s : ISession) (d : Frame) : Except Unit ISession :=
  if d.type == some "done" then
    .ok { s with loading := false }
  else
    let ms0 := ensureOpen s.messages
    let ms1 := match d.thought with
      | some t => if t != "" then modifyLast (fun m => { m with thought := m.thought ++ t }) ms0 else ms0
      | none => ms0
    let ms2 := match d.content with
      | some c => if c != "" then modifyLast (fun m => { m with content := m.content ++ c }) ms1 else ms1
      | none => ms1
    match (if d.status == some "tool_calling" then
        match d.tool_calls with
        | some tcs => Except.ok (modifyLast
            (fun m => { m with tool_calls := m.tool_calls ++ tcs.map toITool }) ms2)
        | none => Except.error ()
      else Except.ok ms2) with
    | .error e => .error e
    | .ok ms3 =>
      match (if d.status == some "tool_executed" then
          match d.tool_results with
          | some trs => Except.ok (modifyLast
              (fun m => { m with tool_calls := trs.foldl (fun ts r => updateFirstITool r ts) m.tool_calls }) ms3)
          | none => Except.error ()
        else Except.ok ms3) with
      | .error e => .error e
      | .ok ms4 => .ok { s with messages := ms4 }

/-- The incremental `socket.onmessage` handler as installed: **no**
`try/catch` surrounds `JSON.parse(event.data)`, so a malformed message
raises out of the handler. -/
def ingestIRaw (s : ISession) (r : Raw) : Except Unit ISession :=
  match r with
  | .valid f => ingestI s f
  | .malformed => .error ()

/-- Ingest a list of frames in incremental mode, stopping at the first
raised exception. -/
def ingestIList (s : ISession) : List Frame → Except Unit ISession
  | [] => .ok s
  | f :: fs =>
    match ingestI s f with
    | .error e => .error e
    | .ok s' => ingestIList s' fs

/-! ## Connection supervisor

The socket lifecycle common to both clients: `onopen` sets
`wsConnected`, `onclose` clears it and schedules `initWebSocket` again
via `setTimeout(initWebSocket, 3000)`, a firing timer re-invokes
`connect`, and incoming messages are fed to the discrete `onmessage`
handler. -/

/-- Events the supervisor reacts to. -/
inductive SupEvent where
  | sockOpen
  | sockClose
  | timerFire
  | sockMessage (r : Raw)
deriving DecidableEq, Repr

/-- Supervisor state: the session, the delays (ms) of pending reconnect
timers in scheduling order, and how many times `initWebSocket` has been
invoked by a timer. -/
structure SupState where
  sess : DSession := {}
  pendingTimers : List Nat := []
  connectCount : Nat := 0
deriving DecidableEq, Repr

/-- One supervisor step. `sockClose` transcribes `socket.onclose`:
`wsConnected.value = false; setTimeout(initWebSocket, 3000)`. -/
def supStep (st : SupState) (e : SupEvent) : SupState :=
  match e with
  | .sockOpen => { st with sess := { st.sess with wsConnected := true } }
  | .sockClose =>
      { st with sess := { st.sess with wsConnected := false },
                pendingTimers := st.pendingTimers ++ [3000] }
  | .timerFire =>
      match st.pendingTimers with
      | [] => st
      | _ :: rest =>
          { st with pendingTimers := rest, connectCount := st.connectCount + 1 }
  | .sockMessage r => { st with sess := ingestDRaw st.sess r }

/-! ## Frame constructors used in the statements -/

/-- A pure `tool_calling` frame carrying one request. -/
def reqFrame (i fn a : String) : Frame :=
  { status := some "tool_calling", tool_calls := some [{ id := i, function_name := fn, args := a }] }

/-- A pure `tool_executed` frame carrying one result. -/
def resultFrame (c r : String) : Frame :=
  { status := some "tool_executed", tool_results := some [{ call_id := c, result := r }] }

/-- A frame carrying only a `thought` string. -/
def thoughtOnlyFrame (t : String) : Frame := { thought := some t }

/-- A frame carrying only a `content` string. -/
def contentOnlyFrame (c : String) : Frame := { content := some c }

/-- An incremental-mode delta frame carrying an optional thought
fragment and an optional content fragment and nothing else (a pure
`content_delta` is `fragFrame none (some d)`, a pure `thought_delta`
is `fragFrame (some d) none`). -/
def fragFrame (t c : Option String) : Frame := { thought := t, content := c }

/-- Concatenation of a list of strings in order. -/
def concatS : List String → String
  | [] => ""
  | s :: rest => s ++ concatS rest

/-! ## Helper lemmas -/

/-- A `tool_executed` frame reduces `ingestD` to one `updateFirstRes`
pass over the message list. -/
theorem ingestD_resultFrame (s : DSession) (c r : String) :
    ingestD s (resultFrame c r) =
      { s with messages := updateFirstRes { call_id := c, result := r } s.messages } := rfl

/-- `updateFirstRes` rewrites exactly the first matching request when
the prefix holds none. -/
theorem updateFirstRes_eq_append (tr : ToolResult) (pre post : List Msg) (m : Msg)
    (hpre : ∀ x ∈ pre, ¬(x.type = .tool_request ∧ x.call_id = tr.call_id))
    (hm : m.type = .tool_request) (hc : m.call_id = tr.call_id) :
    updateFirstRes tr (pre ++ m :: post) =
      pre ++ ({ m with
        result := tr.result,
        is_error := tr.is_error.getD false,
        file_paths := match tr.file_paths with
          | some fps => fps
          | none => m.file_paths } :: post) := by
  induction pre with
  | nil => simp [updateFirstRes, hm, hc]
  | cons x xs ih =>
    have hx := hpre x (by simp)
    simp only [List.cons_append, updateFirstRes, if_neg hx]
    exact congrArg (x :: ·) (ih (fun y hy => hpre y (by simp [hy])))

/-- `updateFirstRes` is the identity when no message matches. -/
theorem updateFirstRes_no_match (tr : ToolResult) (l : List Msg)
    (h : ∀ x ∈ l, ¬(x.type = .tool_request ∧ x.call_id = tr.call_id)) :
    updateFirstRes tr l = l := by
  induction l with
  | nil => rfl
  | cons x xs ih =>
    have hx := h x (by simp)
    simp only [updateFirstRes, if_neg hx]
    exact congrArg (x :: ·) (ih (fun y hy => h y (by simp [hy])))

/-- `toggleFirst` is the identity when no message has the id. -/
theorem toggleFirst_not_mem (msgId : Nat) (l : List Msg)
    (h : ∀ x ∈ l, x.id ≠ msgId) : toggleFirst msgId l = l := by
  induction l with
  | nil => rfl
  | cons x xs ih =>
    have hx := h x (by simp)
    simp only [toggleFirst, if_neg hx]
    exact congrArg (x :: ·) (ih (fun y hy => h y (by simp [hy])))

/-- `toggleFirst` flips exactly the first matching message. -/
theorem toggleFirst_eq_append (msgId : Nat) (pre post : List Msg) (m : Msg)
    (hpre : ∀ x ∈ pre, x.id ≠ msgId) (hm : m.id = msgId) :
    toggleFirst msgId (pre ++ m :: post) =
      pre ++ ({ m with collapsed := !m.collapsed } :: post) := by
  induction pre with
  | nil => simp [toggleFirst, hm]
  | cons x xs ih =>
    have hx := hpre x (by simp)
    simp only [List.cons_append, toggleFirst, if_neg hx]
    exact congrArg (x :: ·) (ih (fun y hy => hpre y (by simp [hy])))

/-- Applying `toggleFirst` twice restores the original list. -/
theorem toggleFirst_involutive (msgId : Nat) (l : List Msg) :
    toggleFirst msgId (toggleFirst msgId l) = l := by
  induction l with
  | nil => rfl
  | cons x xs ih =>
    by_cases hx : x.id = msgId
    · have h2 : ({ x with collapsed := !x.collapsed } : Msg).id = msgId := hx
      simp only [toggleFirst, if_pos hx, if_pos h2, Bool.not_not]
    · simp only [toggleFirst, if_neg hx]
      exact congrArg (x :: ·) ih

/-- If every character surviving `dropWhile p` satisfies `p`, the whole
list does. -/
theorem all_of_dropWhile_all {p : Char → Bool} :
    ∀ {l : List Char}, (∀ x ∈ l.dropWhile p, p x = true) → ∀ x ∈ l, p x = true := by
  intro l
  induction l with
  | nil => intro _ x hx; cases hx
  | cons y ys ih =>
    intro h x hx
    by_cases hy : p y = true
    · rcases List.mem_cons.mp hx with rfl | hmem
      · exact hy
      · exact ih (by simpa [List.dropWhile, hy] using h) x hmem
    · have hdw : (y :: ys).dropWhile p = y :: ys := by
        simp [List.dropWhile, hy]
      exact h x (by rw [hdw]; exact hx)

/-- JS `trim` yields the empty string exactly on all-whitespace input. -/
theorem jsTrim_eq_empty_iff (t : String) :
    jsTrim t = "" ↔ ∀ ch ∈ t.data, jsWS ch = true := by
  unfold jsTrim
  constructor
  · intro h
    have hdata : (((t.data.dropWhile jsWS).reverse.dropWhile jsWS).reverse) = [] := by
      have := congrArg String.data h
      simpa using this
    have h2 : ((t.data.dropWhile jsWS).reverse.dropWhile jsWS) = [] := by
      simpa using congrArg List.reverse hdata
    have h3 : ∀ x ∈ (t.data.dropWhile jsWS).reverse, jsWS x = true := by
      intro x hx
      exact all_of_dropWhile_all (by simp [h2]) x hx
    have h4 : ∀ x ∈ t.data.dropWhile jsWS, jsWS x = true := by
      intro x hx; exact h3 x (by simpa using hx)
    exact all_of_dropWhile_all h4
  · intro h
    have h1 : t.data.dropWhile jsWS = [] := List.dropWhile_eq_nil_iff.mpr h
    simp [h1]

/-- `modifyLast` rewrites exactly the last element. -/
theorem modifyLast_append (f : IMsg → IMsg) :
    ∀ (pre : List IMsg) (m : IMsg), modifyLast f (pre ++ [m]) = pre ++ [f m]
  | [], _ => rfl
  | [_], _ => rfl
  | x :: y :: pre, m => by
    have ih := modifyLast_append f (y :: pre) m
    simp only [List.cons_append] at ih ⊢
    simp only [modifyLast]
    rw [ih]

/-- A `thought`-only frame reduces `ingestD` to the single guarded push. -/
theorem ingestD_thoughtOnly (s : DSession) (t : String) :
    ingestD s (thoughtOnlyFrame t) =
      if t != "" && jsTrim t != "" then pushThought s t else s := rfl

/-- A `content`-only frame reduces `ingestD` to the single guarded push. -/
theorem ingestD_contentOnly (s : DSession) (c : String) :
    ingestD s (contentOnlyFrame c) =
      if c != "" && jsTrim c != "" then pushAssistant s c else s := rfl

/-- One incremental delta frame appends its fragments (absent ones
count as empty) to the open assistant turn. -/
theorem ingestI_frag (s : ISession) (pre : List IMsg) (m : IMsg) (t c : Option String)
    (hs : s.messages = pre ++ [m]) (hm : m.role ≠ "user") :
    ingestI s (fragFrame t c) =
      .ok { s with messages :=
        pre ++ [{ m with thought := m.thought ++ t.getD "",
                         content := m.content ++ c.getD "" }] } := by
  have hne : (m.role == "user") = false := beq_eq_false_iff_ne.mpr hm
  have hopen : ensureOpen s.messages = pre ++ [m] := by
    rw [hs]
    unfold ensureOpen
    rw [List.getLast?_concat]
    simp [hne]
  cases t with
  | none =>
    cases c with
    | none => simp [ingestI, fragFrame, hopen, modifyLast_append]
    | some c' =>
      by_cases hc2 : c' = "" <;> simp [ingestI, fragFrame, hopen, modifyLast_append, hc2]
  | some t' =>
    cases c with
    | none =>
      by_cases ht2 : t' = "" <;> simp [ingestI, fragFrame, hopen, modifyLast_append, ht2]
    | some c' =>
      by_cases ht2 : t' = "" <;> by_cases hc2 : c' = "" <;>
        simp [ingestI, fragFrame, hopen, modifyLast_append, ht2, hc2]

/-- Unfolding step of `ingestIList` on a successful ingest. -/
theorem ingestIList_cons_ok (s s' : ISession) (f : Frame) (fs : List Frame)
    (h : ingestI s f = .ok s') :
    ingestIList s (f :: fs) = ingestIList s' fs := by
  simp [ingestIList, h]

/-! ## Claims -/

/-- C1 (counterexample): after registering call `t1`, ingesting a first
`tool_executed` result `r1` and then a second result `r2` for the same
call id leaves the stored result equal to `"r2"`, not `"r1"`: the
second result is not ignored — it overwrites the first. -/
theorem dup_result_overwrite_counterexample :
    ((ingestD (ingestD (ingestD initD (reqFrame "t1" "mixer" "x"))
        (resultFrame "t1" "r1")) (resultFrame "t1" "r2")).messages.map Msg.result
      = ["r2"]) ∧ ("r2" : String) ≠ "r1" := by
  exact ⟨rfl, by decide⟩

/-- C1 (amended): for every call id `c`, ingesting a result `r1` and
then a result `r2` for `c` leaves the record's stored result equal to
`r2` — the later result overwrites the earlier one (last write wins,
not idempotence). -/
theorem resolve_twice_last_write_wins (s : DSession) (pre post : List Msg) (m : Msg)
    (c r1 r2 : String)
    (hpre : ∀ x ∈ pre, ¬(x.type = .tool_request ∧ x.call_id = c))
    (hm : m.type = .tool_request) (hc : m.call_id = c) (hs : s.messages = pre ++ m :: post) :
    (ingestD (ingestD s (resultFrame c r1)) (resultFrame c r2)).messages =
      pre ++ ({ m with result := r2, is_error := false } :: post) := by
  simp only [ingestD_resultFrame]
  rw [hs]
  rw [updateFirstRes_eq_append { call_id := c, result := r1 } pre post m hpre hm hc]
  exact updateFirstRes_eq_append { call_id := c, result := r2 } pre post _ hpre hm hc

/-- C1 (witness): the amended theorem on a concrete one-request session. -/
theorem resolve_twice_last_write_wins_witness :
    (ingestD (ingestD (ingestD initD (reqFrame "t1" "mixer" "x"))
        (resultFrame "t1" "a")) (resultFrame "t1" "b")).messages =
      [{ id := 0, type := .tool_request, call_id := "t1", function_name := "mixer",
         args := "x", result := "b" }] := by
  have h := resolve_twice_last_write_wins (ingestD initD (reqFrame "t1" "mixer" "x"))
    [] []
    { id := 0, type := .tool_request, call_id := "t1", function_name := "mixer", args := "x" }
    "t1" "a" "b" (by intro x hx; cases hx) rfl rfl rfl
  simpa using h

/-- C5 (counterexample): an orphaned `tool_executed` result on the
empty session leaves the session entirely unchanged; in particular the
console log stays empty, so no warning is logged, contrary to the
claim. -/
theorem orphan_no_warning_counterexample :
    ingestD initD (resultFrame "unknown" "") = initD ∧
    (ingestD initD (resultFrame "unknown" "")).log = [] := ⟨rfl, rfl⟩

/-- C5 (amended): a `tool_executed` result whose `call_id` matches no
`tool_request` message leaves the session — transcript, flags and
console log — completely unchanged: the orphan is discarded silently
(no warning entry) and no exception is raised. -/
theorem orphan_result_noop (s : DSession) (c r : String)
    (h : ∀ x ∈ s.messages, ¬(x.type = .tool_request ∧ x.call_id = c)) :
    ingestD s (resultFrame c r) = s := by
  rw [ingestD_resultFrame]
  rw [updateFirstRes_no_match _ _ h]

/-- C5 (witness): the amended theorem on the empty session. -/
theorem orphan_result_noop_witness :
    ingestD initD (resultFrame "unknown" "y") = initD :=
  orphan_result_noop initD "unknown" "y" (by intro x hx; cases hx)

/-- C9: `toggleCollapse` flips exactly the `collapsed` flag of the
first message carrying the id, leaving every other field, every other
message and the order and number of messages unchanged; it is the
identity when the id is absent; and applying it twice restores the
original session. -/
theorem toggleCollapse_spec (s : DSession) (msgId : Nat) (pre post : List Msg) (m : Msg)
    (hpre : ∀ x ∈ pre, x.id ≠ msgId) (hm : m.id = msgId) (hs : s.messages = pre ++ m :: post) :
    (toggleCollapse s msgId =
      { s with messages := pre ++ ({ m with collapsed := !m.collapsed } :: post) })
    ∧ (∀ s' : DSession, (∀ x ∈ s'.messages, x.id ≠ msgId) → toggleCollapse s' msgId = s')
    ∧ (∀ s' : DSession, toggleCollapse (toggleCollapse s' msgId) msgId = s') := by
  refine ⟨?_, ?_, ?_⟩
  · unfold toggleCollapse
    rw [hs, toggleFirst_eq_append msgId pre post m hpre hm]
  · intro s' h
    unfold toggleCollapse
    rw [toggleFirst_not_mem msgId s'.messages h]
  · intro s'
    simp only [toggleCollapse]
    rw [toggleFirst_involutive]

/-- C9 (witness): flipping the collapse flag of message 1 in a concrete
two-message transcript. -/
theorem toggleCollapse_spec_witness :
    toggleCollapse ({ messages := [{ id := 0, type := .user, content := "hi" },
        { id := 1, type := .thought, content := "t" }] } : DSession) 1 =
      { messages := [{ id := 0, type := .user, content := "hi" },
        { id := 1, type := .thought, content := "t", collapsed := true }] } := by
  have h := (toggleCollapse_spec
    ({ messages := [{ id := 0, type := .user, content := "hi" },
        { id := 1, type := .thought, content := "t" }] } : DSession) 1
    [{ id := 0, type := .user, content := "hi" }] []
    { id := 1, type := .thought, content := "t" }
    (by decide) rfl rfl).1
  exact h.trans (by decide)

/-- C10: in discrete mode a frame whose `thought` (resp. `content`)
field is empty or all-whitespace creates no turn — the session is
unchanged — while a value containing at least one non-whitespace
character appends exactly one thought (resp. assistant) message. -/
theorem blank_text_no_turn (s : DSession) (t c : String) :
    ((∀ ch ∈ t.data, jsWS ch = true) → ingestD s (thoughtOnlyFrame t) = s)
    ∧ ((∃ ch ∈ t.data, jsWS ch = false) → ingestD s (thoughtOnlyFrame t) = pushThought s t)
    ∧ ((∀ ch ∈ c.data, jsWS ch = true) → ingestD s (contentOnlyFrame c) = s)
    ∧ ((∃ ch ∈ c.data, jsWS ch = false) → ingestD s (contentOnlyFrame c) = pushAssistant s c) := by
  have blank : ∀ (t' : String), (∀ ch ∈ t'.data, jsWS ch = true) →
      (t' != "" && jsTrim t' != "") = false := by
    intro t' h
    have : jsTrim t' = "" := (jsTrim_eq_empty_iff t').mpr h
    simp [this]
  have nonblank : ∀ (t' : String), (∃ ch ∈ t'.data, jsWS ch = false) →
      (t' != "" && jsTrim t' != "") = true := by
    intro t' h
    obtain ⟨ch, hch, hws⟩ := h
    have h1 : jsTrim t' ≠ "" := by
      intro he
      have := (jsTrim_eq_empty_iff t').mp he ch hch
      rw [this] at hws
      cases hws
    have h2 : t' ≠ "" := by
      intro he
      subst he
      cases hch
    rw [Bool.and_eq_true, bne_iff_ne, bne_iff_ne]
    exact ⟨h2, h1⟩
  refine ⟨?_, ?_, ?_, ?_⟩
  · intro h
    rw [ingestD_thoughtOnly, blank t h, if_neg]
    simp
  · intro h
    rw [ingestD_thoughtOnly, nonblank t h, if_pos rfl]
  · intro h
    rw [ingestD_contentOnly, blank c h, if_neg]
    simp
  · intro h
    rw [ingestD_contentOnly, nonblank c h, if_pos rfl]

/-- C10 (witness): blank and non-blank thought/content fields on the
empty session. -/
theorem blank_text_no_turn_witness :
    ingestD initD (thoughtOnlyFrame "  ") = initD ∧
    ingestD initD (thoughtOnlyFrame " a ") = pushThought initD " a " ∧
    ingestD initD (contentOnlyFrame "") = initD ∧
    ingestD initD (contentOnlyFrame "ok") = pushAssistant initD "ok" :=
  ⟨(blank_text_no_turn initD "  " "").1 (by decide),
   (blank_text_no_turn initD " a " "ok").2.1 (by decide),
   (blank_text_no_turn initD " a " "").2.2.1 (by decide),
   (blank_text_no_turn initD " a " "ok").2.2.2 (by decide)⟩

/-- C2 (counterexample): a frame carrying `type:'done'` together with a
non-blank `thought` appends nothing — the done branch returns early and
suppresses the thought field's effect (and the done effect runs first,
not last), while the same thought alone would append a turn. -/
theorem done_frame_suppression_counterexample :
    ingestD { initD with loading := true } { type := some "done", thought := some "Reasoning" } =
      { initD with loading := false } ∧
    ingestD initD (thoughtOnlyFrame "Reasoning") = pushThought initD "Reasoning" := by
  exact ⟨rfl, by decide⟩

/-- C2 (amended): a `type:'done'` frame only clears `loading`, ignoring
every other field; otherwise a `type:'file_download'` frame with a
`file_paths` field only appends a file-listing turn, ignoring every
other field; any other frame applies the `thought`, `tool_calling`,
`tool_executed` and `content` effects independently, in that fixed
order. -/
theorem ingest_field_order (s : DSession) (d : Frame) :
    (d.type = some "done" → ingestD s d = { s with loading := false })
    ∧ (d.type = some "file_download" → d.file_paths.isSome = true →
        ingestD s d = pushFileMsg s (d.file_paths.getD []))
    ∧ (d.type ≠ some "done" → ¬(d.type = some "file_download" ∧ d.file_paths.isSome = true) →
        ingestD s d = contentEffect d (toolExecEffect d (toolCallEffect d (thoughtEffect d s)))) := by
  refine ⟨?_, ?_, ?_⟩
  · intro h
    unfold ingestD
    rw [h]
    simp
  · intro h hfp
    unfold ingestD
    rw [h]
    simp [hfp]
  · intro h1 h2
    have e1 : (d.type == some "done") = false := beq_eq_false_iff_ne.mpr h1
    have e2 : (d.type == some "file_download" && d.file_paths.isSome) = false := by
      by_cases hf : d.type = some "file_download"
      · cases hp : d.file_paths.isSome with
        | true => exact absurd ⟨hf, hp⟩ h2
        | false => simp [hf, hp]
      · simp [beq_eq_false_iff_ne.mpr hf]
    simp [ingestD, thoughtEffect, toolCallEffect, toolExecEffect, contentEffect, e1, e2]

/-- C2 (witness): the generic-frame branch on a frame carrying thought,
a tool request and content simultaneously. -/
theorem ingest_field_order_witness :
    ingestD initD
      { thought := some "Th", content := some "Co", status := some "tool_calling",
        tool_calls := some [{ id := "t1", function_name := "f", args := "a" }] } =
      contentEffect
        { thought := some "Th", content := some "Co", status := some "tool_calling",
          tool_calls := some [{ id := "t1", function_name := "f", args := "a" }] }
        (toolExecEffect
          { thought := some "Th", content := some "Co", status := some "tool_calling",
            tool_calls := some [{ id := "t1", function_name := "f", args := "a" }] }
          (toolCallEffect
            { thought := some "Th", content := some "Co", status := some "tool_calling",
              tool_calls := some [{ id := "t1", function_name := "f", args := "a" }] }
            (thoughtEffect
              { thought := some "Th", content := some "Co", status := some "tool_calling",
                tool_calls := some [{ id := "t1", function_name := "f", args := "a" }] }
              initD))) :=
  (ingest_field_order initD
    { thought := some "Th", content := some "Co", status := some "tool_calling",
      tool_calls := some [{ id := "t1", function_name := "f", args := "a" }] }).2.2
    (by decide) (by decide)

/-- C3 (counterexample): a `tool_request` appended before a user turn is
still mutated by a `tool_executed` frame arriving after that user turn:
the record of the closed agent turn receives the late result. -/
theorem closed_turn_mutation_counterexample :
    ((sendMessage (ingestD initD (reqFrame "t1" "mixer" "x")) "hi").1.messages.map Msg.type
      = [.tool_request, .user]) ∧
    ((ingestD (sendMessage (ingestD initD (reqFrame "t1" "mixer" "x")) "hi").1
        (resultFrame "t1" "late")).messages.map Msg.result = ["late", ""]) := by
  exact ⟨by decide, by decide⟩

/-- C3 (amended): a `tool_executed` result updates the first matching
`tool_request` record wherever it sits in the transcript — the suffix
after it is unconstrained and may contain later user turns — so agent
turns closed by a user turn are not immutable against tool results. -/
theorem result_update_ignores_turn_boundaries (s : DSession) (pre post : List Msg) (m : Msg)
    (c r : String)
    (hpre : ∀ x ∈ pre, ¬(x.type = .tool_request ∧ x.call_id = c))
    (hm : m.type = .tool_request) (hc : m.call_id = c) (hs : s.messages = pre ++ m :: post) :
    (ingestD s (resultFrame c r)).messages =
      pre ++ ({ m with result := r, is_error := false } :: post) := by
  simp only [ingestD_resultFrame]
  rw [hs]
  exact updateFirstRes_eq_append { call_id := c, result := r } pre post m hpre hm hc

/-- C3 (witness): the amended theorem on a transcript whose request is
followed by a user turn. -/
theorem result_update_ignores_turn_boundaries_witness :
    (ingestD
      ({ messages :=
          [{ id := 0, type := .tool_request, call_id := "t1", function_name := "mixer", args := "x" },
           { id := 1, type := .user, content := "hi" }],
         counter := 2, loading := true } : DSession)
      (resultFrame "t1" "late")).messages =
      [{ id := 0, type := .tool_request, call_id := "t1", function_name := "mixer", args := "x",
         result := "late" },
       { id := 1, type := .user, content := "hi" }] := by
  have h := result_update_ignores_turn_boundaries
    ({ messages :=
        [{ id := 0, type := .tool_request, call_id := "t1", function_name := "mixer", args := "x" },
         { id := 1, type := .user, content := "hi" }],
       counter := 2, loading := true } : DSession)
    [] [{ id := 1, type := .user, content := "hi" }]
    { id := 0, type := .tool_request, call_id := "t1", function_name := "mixer", args := "x" }
    "t1" "late" (by intro x hx; cases hx) rfl rfl rfl
  exact h.trans (by decide)

/-- C4 (counterexample): the incremental-mode handler wraps nothing in
try/catch, so a malformed wire message makes `JSON.parse` raise and the
exception escapes the ingestion boundary. -/
theorem incremental_malformed_raises_counterexample :
    ingestIRaw initI .malformed = .error () := rfl

/-- C4 (amended): the discrete-mode handler catches a malformed message
at the ingestion boundary — it logs the parse failure and leaves the
transcript, loading flag and connection state untouched — but the
incremental-mode handler has no such guard and lets the parse exception
escape. -/
theorem malformed_frame_handling (s : DSession) (si : ISession) :
    ingestDRaw s .malformed = { s with log := s.log ++ ["解析WebSocket消息失败"] }
    ∧ (ingestDRaw s .malformed).messages = s.messages
    ∧ (ingestDRaw s .malformed).loading = s.loading
    ∧ (ingestDRaw s .malformed).wsConnected = s.wsConnected
    ∧ ingestIRaw si .malformed = .error () :=
  ⟨rfl, rfl, rfl, rfl, rfl⟩

/-- C6: in incremental mode, ingesting a sequence of delta frames onto
an open assistant turn concatenates the fragments in arrival order onto
`content`, and likewise onto `thought`; no frame in the sequence raises
or creates a new turn. -/
theorem delta_concatenation (s : ISession) (pre : List IMsg) (m : IMsg)
    (ds : List (Option String × Option String))
    (hs : s.messages = pre ++ [m]) (hm : m.role ≠ "user") :
    ingestIList s (ds.map (fun p => fragFrame p.1 p.2)) =
      .ok { s with messages := pre ++ [{ m with
        thought := m.thought ++ concatS (ds.map (fun p => p.1.getD "")),
        content := m.content ++ concatS (ds.map (fun p => p.2.getD "")) }] } := by
  induction ds generalizing s m with
  | nil =>
    simp only [List.map_nil, ingestIList, concatS]
    rw [String.append_empty, String.append_empty, ← hs]
  | cons p rest ih =>
    rw [List.map_cons,
        ingestIList_cons_ok _ _ _ _ (ingestI_frag s pre m p.1 p.2 hs hm)]
    have ih' := ih
      { s with messages := pre ++
          [{ m with thought := m.thought ++ p.1.getD "",
                    content := m.content ++ p.2.getD "" }] }
      { m with thought := m.thought ++ p.1.getD "",
               content := m.content ++ p.2.getD "" } rfl hm
    rw [ih']
    simp [concatS, String.append_assoc]

/-- C6 (witness): `content_delta("Hel")` then `content_delta("lo")` on
a fresh open assistant turn yields content exactly `"Hello"`. -/
theorem delta_concatenation_witness :
    ingestIList ({ messages := [freshAssistant] } : ISession)
      ([(none, some "Hel"), (none, some "lo")].map (fun p => fragFrame p.1 p.2)) =
      .ok { messages := [{ role := "assistant", content := "Hello", thought := "" }] } := by
  have h := delta_concatenation ({ messages := [freshAssistant] } : ISession) [] freshAssistant
    [(none, some "Hel"), (none, some "lo")] rfl (by decide)
  exact h.trans (congrArg Except.ok (by decide))

/-- C7 (counterexample): with the connection not open (`wsConnected =
false` in the initial state), `sendMessage` still appends the local
user-echo turn and still hands one `{message}` frame to `socket.send` —
it is not a surfaced no-op. -/
theorem send_disconnected_counterexample :
    initD.wsConnected = false ∧
    (sendMessage initD "hello").1.messages.map Msg.type = [.user] ∧
    (sendMessage initD "hello").2 = [{ message := "hello" }] := by
  exact ⟨rfl, by decide, by decide⟩

/-- C7 (amended): `sendMessage` is a no-op exactly when the input is
empty or a response is pending (`loading`); it never consults the
connection state — otherwise, connected or not, it appends one local
user-echo turn carrying the input text, hands exactly one `{message}`
frame to `socket.send`, and sets `loading`. -/
theorem sendMessage_guard_spec (s : DSession) (input : String) :
    ((input = "" ∨ s.loading = true) → sendMessage s input = (s, []))
    ∧ (input ≠ "" → s.loading = false →
        sendMessage s input =
          ({ pushUser s input with loading := true }, [{ message := input }])) := by
  constructor
  · intro h
    rcases h with h | h
    · subst h; simp [sendMessage]
    · simp [sendMessage, h]
  · intro h1 h2
    simp [sendMessage, h1, h2]

/-- C7 (witness): the amended theorem on the initial (disconnected)
session with a non-empty input and with an empty input. -/
theorem sendMessage_guard_spec_witness :
    sendMessage initD "hi" = ({ pushUser initD "hi" with loading := true }, [{ message := "hi" }])
    ∧ sendMessage initD "" = (initD, []) :=
  ⟨(sendMessage_guard_spec initD "hi").2 (by decide) rfl,
   (sendMessage_guard_spec initD "").1 (Or.inl rfl)⟩

/-- C8: every transport close marks the connection not-open and appends
exactly one reconnection timer with the fixed 3000 ms delay, whatever
the history (no backoff growth, no retry cap); a firing timer invokes
`connect` exactly once; and after close → timer → reopen, an inbound
frame is ingested again. -/
theorem reconnect_policy (st : SupState) (d : Nat) (rest : List Nat) (f : Frame) :
    ((supStep st .sockClose).sess.wsConnected = false
      ∧ (supStep st .sockClose).pendingTimers = st.pendingTimers ++ [3000]
      ∧ (supStep st .sockClose).connectCount = st.connectCount)
    ∧ (st.pendingTimers = d :: rest →
        (supStep st .timerFire).connectCount = st.connectCount + 1
        ∧ (supStep st .timerFire).pendingTimers = rest)
    ∧ (st.pendingTimers = [] →
        (List.foldl supStep st [.sockClose, .timerFire, .sockOpen, .sockMessage (.valid f)]).sess
          = ingestD { st.sess with wsConnected := true } f
        ∧ (List.foldl supStep st
            [.sockClose, .timerFire, .sockOpen, .sockMessage (.valid f)]).connectCount
          = st.connectCount + 1) := by
  refine ⟨⟨rfl, rfl, rfl⟩, ?_, ?_⟩
  · intro h
    constructor <;> simp [supStep, h]
  · intro h
    constructor <;> simp [supStep, h, ingestDRaw]

/-- C8 (witness): the policy on the fresh supervisor state. -/
theorem reconnect_policy_witness :
    (supStep ({} : SupState) .sockClose).pendingTimers = [3000] ∧
    (List.foldl supStep ({} : SupState)
      [.sockClose, .timerFire, .sockOpen, .sockMessage (.valid (thoughtOnlyFrame "z"))]).sess
        = ingestD { ({} : SupState).sess with wsConnected := true } (thoughtOnlyFrame "z") ∧
    (List.foldl supStep ({} : SupState)
      [.sockClose, .timerFire, .sockOpen,
       .sockMessage (.valid (thoughtOnlyFrame "z"))]).connectCount = 1 := by
  have h := reconnect_policy ({} : SupState) 0 [] (thoughtOnlyFrame "z")
  exact ⟨h.1.2.1, (h.2.2 rfl).1, (h.2.2 rfl).2⟩

end AspenSim
